import Mathlib

/-!
Verification of the RGP (Region of Genomic Plasticity) core of PPanGGOLiN.

Shallow embedding of `ppanggolin/RGP/genomicIsland.py` and
`ppanggolin/RGP/rgp_cluster.py`.  Python lists of mutable `MatriceNode`
objects are embedded as `List MatriceNode` with `prev` stored as an index
(`Option Nat`); each in-place mutation becomes `List.set` at that index.
Python `while` loops are embedded as fuel-indexed recursions; every theorem
about such a loop is quantified over the fuel, or instantiated at a fuel
that provably exceeds the number of iterations the loop performs.
-/

namespace PPan

/-- Partition label of a gene family (`named_partition` in the source). -/
inductive Part
  | persistent
  | shell
  | cloud
deriving DecidableEq

/-- A gene: family identifier, the family's partition, and coordinates.
Mirrors the fields of `ppanggolin.genome.Gene` that the RGP code reads. -/
structure Gene where
  family : Nat
  part : Part
  start : Nat
  stop : Nat
deriving DecidableEq

def gdefault : Gene := { family := 0, part := Part.cloud, start := 0, stop := 0 }

/-- `gene.family.named_partition == "persistent" and gene.family not in multi`
(the guard used in `init_matrices` and `rewrite_matrix`). -/
def persNM (multi : List Nat) (g : Gene) : Bool :=
  (g.part = Part.persistent) && !(multi.contains g.family)

/-- One scored node per gene (`MatriceNode` in genomicIsland.py).
`state` embeds the 1/0 integer of the source as a `Bool`; `prev` is the
index of the predecessor node (`None` at the sequence start). -/
structure MatriceNode where
  state : Bool
  score : Int
  prev : Option Nat
  gene : Gene
deriving DecidableEq

def ndefault : MatriceNode :=
  { state := false, score := 0, prev := none, gene := gdefault }

/-- `MatriceNode.changes`: set state to `1` iff the (pre-clamp) score is
`>= 0`, and clamp a negative score to `0`. -/
def MatriceNode.changes (n : MatriceNode) (s : Int) : MatriceNode :=
  { n with state := decide (0 ≤ s), score := if 0 ≤ s then s else 0 }

/-- A contig: named, ordered gene list plus circularity flag.
`orgName` flattens the `gene.organism.name` back-reference used by the
"organism" naming mode. -/
structure Contig where
  name : String
  orgName : String
  genes : List Gene
  isCircular : Bool

/-- An extracted region (`ppanggolin.region.Region` as used here): its name,
its genes in append order (`region[0]` is the gene appended first), and the
score assigned by `mk_regions`. -/
structure Region where
  name : String
  genes : List Gene
  score : Int
deriving DecidableEq

def rdefault : Region := { name := "", genes := [], score := 0 }

/-- The two naming schemes of `extract_rgp` (parameter `naming`). -/
inductive Naming
  | contig
  | organism

/-- Region name built by `extract_rgp` from the contig and the `rgp_id`. -/
def mkRegionName (nm : Naming) (c : Contig) (rgpId : Nat) : String :=
  match nm with
  | Naming.contig => c.name ++ "_RGP_" ++ toString rgpId
  | Naming.organism => c.orgName ++ "_" ++ c.name ++ "_RGP_" ++ toString rgpId

/-! ## rgp_cluster.py : similarity metrics -/

/-- `compute_grr`: `len(A & B) / mode(len(A), len(B))`, computed in `ℚ`. -/
def computeGrr (famA famB : Finset Nat) (mode : Nat → Nat → Nat) : ℚ :=
  ((famA ∩ famB).card : ℚ) / (mode famA.card famB.card : ℚ)

/-- `compute_jaccard_index`: `len(A & B) / len(A | B)`, computed in `ℚ`. -/
def computeJaccardIndex (famA famB : Finset Nat) : ℚ :=
  ((famA ∩ famB).card : ℚ) / ((famA ∪ famB).card : ℚ)

/-- The three edge metrics stored by `compute_rgp_metric`. -/
structure Metrics where
  minGrr : ℚ
  maxGrr : ℚ
  jaccard : ℚ
deriving DecidableEq

/-- The edge built for one evaluated pair (body of the `if` in
`compute_rgp_metric`): `min_grr = compute_grr(a, b, min)`,
`max_grr = compute_grr(a, b, max)`. -/
def mkEdge (p : (String × Finset Nat) × (String × Finset Nat)) :
    String × String × Metrics :=
  (p.1.1, p.2.1,
    { minGrr := computeGrr p.1.2 p.2.2 Nat.min
      maxGrr := computeGrr p.1.2 p.2.2 Nat.max
      jaccard := computeJaccardIndex p.1.2 p.2.2 })

/-- `compute_rgp_metric`: walk the chunk of simplified pairs, keep only
pairs sharing at least one family (`if rgp_a_fam & rgp_b_fam:` — set
truthiness is non-emptiness), and append the metric edge for each kept
pair, in order. -/
def computeRgpMetric :
    List ((String × Finset Nat) × (String × Finset Nat)) →
    List (String × String × Metrics)
  | [] => []
  | p :: rest =>
    if (p.1.2 ∩ p.2.2).Nonempty then
      mkEdge p :: computeRgpMetric rest
    else
      computeRgpMetric rest

/-! ## genomicIsland.py : check_pangenome_former_rgp -/

/-- Observable outcome of `check_pangenome_former_rgp`. -/
inductive CheckResult
  | raiseErr
  | erase
  | noop
deriving DecidableEq

/-- `check_pangenome_former_rgp`: raise when RGPs are `"inFile"` and `force`
is not set; erase them when `"inFile"` and `force`; otherwise do nothing. -/
def checkPangenomeFormerRgp (status : String) (force : Bool) : CheckResult :=
  if status = "inFile" && !force then CheckResult.raiseErr
  else if status = "inFile" && force then CheckResult.erase
  else CheckResult.noop

/-! ## genomicIsland.py : init_matrices -/

/-- Loop body of the first pass of `init_matrices`: the node built for gene
`g` when the counter is `nb`, the previous node's score is `ps` (`none`
before the first gene — then `curr_score` is just `modif`) and the node will
sit at index `idx`.  The node is created with `state = 1` iff the pre-clamp
score is `>= 0`, and the `MatriceNode` constructor clamps a negative score
to `0`. -/
def fpNode (multi : List Nat) (P G : Int) (nb : Nat) (ps : Option Int)
    (idx : Nat) (g : Gene) : MatriceNode :=
  let modif : Int := if persNM multi g then -(P ^ nb) else G
  let s : Int := modif + (ps.getD 0)
  { state := decide (0 ≤ s)
    score := if 0 ≤ s then s else 0
    prev := if idx = 0 then none else some (idx - 1)
    gene := g }

/-- The `for gene in contig.genes` loop of `init_matrices`, rendered as a
structural recursion.  `nb` is the running `nb_perc` counter, `ps` the score
of the previously created node (`none` before the first gene), `idx` the
index the next node will occupy (so its `prev` link is `idx - 1`, or `none`
at the start). -/
def firstPassGo (multi : List Nat) (P G : Int) :
    Nat → Option Int → Nat → List Gene → List MatriceNode
  | _, _, _, [] => []
  | nb, ps, idx, g :: rest =>
    let node := fpNode multi P G nb ps idx g
    node :: firstPassGo multi P G (if persNM multi g then nb + 1 else 0)
      (some node.score) (idx + 1) rest

/-- First pass of `init_matrices` over a contig's genes. -/
def firstPass (multi : List Nat) (P G : Int) (genes : List Gene) :
    List MatriceNode :=
  firstPassGo multi P G 0 none 0 genes

/-- Index of the node the source's `zero_ind` variable holds after the first
pass: `zero_ind` is reassigned at every zero-state node created, so it ends
as the *last* index whose node has state 0 (or `none` when every node has
state 1). -/
def lastZeroIdx (mat : List MatriceNode) : Option Nat :=
  ((mat.enum.filter (fun p => p.2.state = false)).getLast?).map (·.1)

/-- The recomputation applied to a node during a rescoring walk (shared by
the wraparound pass of `init_matrices` and by `rewrite_matrix`): the delta
rule of the first pass followed by `changes`. -/
def rwNode (multi : List Nat) (P G : Int) (nb : Nat) (ps : Int)
    (node : MatriceNode) : MatriceNode :=
  node.changes ((if persNM multi node.gene then -(P ^ nb) else G) + ps)

/-- The `nb_perc` update of a rescoring walk step. -/
def rwNb (multi : List Nat) (nb : Nat) (node : MatriceNode) : Nat :=
  if persNM multi node.gene then nb + 1 else 0

/-- The pre-clamp score a rescoring walk computes for a node. -/
def rwScore (multi : List Nat) (P G : Int) (nb : Nat) (ps : Int)
    (node : MatriceNode) : Int :=
  (if persNM multi node.gene then -(P ^ nb) else G) + ps

/-- The circular wraparound `while curr_state` loop of `init_matrices`.
`c` is the walk position, `z` the index held by `zero_ind`, `ps` the score
the loop variable `prev` exposes.  In the source `prev` is never reassigned
inside this loop: it still references the last node of the matrix, which the
walk never modifies (the walk stops at `zero_ind`, whose index is strictly
below the last index because the last node has state 1 when the loop runs),
so a fixed `ps` is faithful.  `changes` preserves the `prev` link, hence the
rewired `mat[0].prev` survives a recomputation of node 0. -/
def circWalk (multi : List Nat) (P G : Int) :
    Nat → List MatriceNode → Nat → Nat → Int → Nat → List MatriceNode
  | 0, mat, _, _, _, _ => mat
  | fuel + 1, mat, c, z, ps, nb =>
    if c = z then mat
    else
      let node := mat.getD c ndefault
      let mat' := mat.set c (rwNode multi P G nb ps node)
      if 0 ≤ rwScore multi P G nb ps node then
        circWalk multi P G fuel mat' (c + 1) z ps (rwNb multi nb node)
      else mat'

/-- `mat[0].prev = prev`: the first node's predecessor rewired to the last
node (done right before the wraparound walk). -/
def rewiredFP (mat : List MatriceNode) : List MatriceNode :=
  mat.set 0 { mat.getD 0 ndefault with prev := some (mat.length - 1) }

/-- Score of the matrix's last node (the `prev.score` the wraparound walk
reads at every step, since `prev` stays bound to the last node). -/
def lastScoreOf (mat : List MatriceNode) : Int :=
  ((mat.getLast?).map (·.score)).getD 0

/-- `init_matrices`: first pass, then — when the contig is circular, the
walk ended in state 1 and some zero-state node exists — rewire `mat[0].prev`
to the last node and re-walk from the first node. -/
def initMatrices (c : Contig) (multi : List Nat) (P G : Int) :
    List MatriceNode :=
  let mat := firstPass multi P G c.genes
  let lastState := ((mat.getLast?).map (·.state)).getD false
  if c.isCircular && lastState then
    match lastZeroIdx mat with
    | some z =>
      circWalk multi P G mat.length (rewiredFP mat) 0 z (lastScoreOf mat) 0
    | none => mat
  else mat

/-! ## genomicIsland.py : extract_rgp -/

/-- The `while node.state` loop of `extract_rgp`: append the gene, zero the
node, follow the `prev` link; stop on a state-0 node or at the sequence
start.  `ndefault.state = false`, so an out-of-range index stops the walk
exactly like a state-0 node. -/
def extractGo :
    Nat → List MatriceNode → Nat → Region → List MatriceNode × Region
  | 0, mat, _, r => (mat, r)
  | fuel + 1, mat, idx, r =>
    let node := mat.getD idx ndefault
    if node.state then
      let r' := { r with genes := r.genes ++ [node.gene] }
      let mat' := mat.set idx { node with state := false, score := 0 }
      match node.prev with
      | none => (mat', r')
      | some j => extractGo fuel mat' j r'
    else (mat, r)

/-- `extract_rgp`: build the named empty region and run the backward walk.
Each visited node is zeroed before its predecessor is visited, so the walk
takes at most `mat.length` steps; fuel `mat.length + 1` never runs out. -/
def extractRgp (c : Contig) (mat : List MatriceNode) (idx : Nat)
    (rgpId : Nat) (nm : Naming) : List MatriceNode × Region :=
  extractGo (mat.length + 1) mat idx
    { name := mkRegionName nm c rgpId, genes := [], score := 0 }

/-! ## genomicIsland.py : rewrite_matrix -/

/-- The `while next_node.state` loop of `rewrite_matrix`: recompute the
score of every still-state-1 node forward of the extraction start, each time
propagating from the just-recomputed predecessor's clamped score (`ps`).
After the increment the index wraps to `0` on a circular contig and the loop
exits at the sequence end otherwise. -/
def rewriteGo (circ : Bool) (multi : List Nat) (P G : Int) :
    Nat → List MatriceNode → Nat → Int → Nat → List MatriceNode
  | 0, mat, _, _, _ => mat
  | fuel + 1, mat, idx, ps, nb =>
    let node := mat.getD idx ndefault
    if node.state then
      let node' := rwNode multi P G nb ps node
      let mat' := mat.set idx node'
      let idx' := idx + 1
      if idx' ≥ mat'.length then
        if circ then
          rewriteGo circ multi P G fuel mat' 0 node'.score (rwNb multi nb node)
        else mat'
      else rewriteGo circ multi P G fuel mat' idx' node'.score
        (rwNb multi nb node)
    else mat

/-- `rewrite_matrix`: start from the node at `index` (its clamped score is
the initial `prev.score`), advance once, apply the source's
`if index > len(matrix) and contig.is_circular: index = 0` check verbatim
(note the strict `>`), and run the recomputation loop when the resulting
index is in range.  The walk stops at the first state-0 node, so when one
exists it takes at most `mat.length` steps and fuel `mat.length + 1`
suffices; when none exists the source loop does not terminate on a circular
contig. -/
def rewriteMatrix (circ : Bool) (mat : List MatriceNode) (index : Nat)
    (P G : Int) (multi : List Nat) : List MatriceNode :=
  let ps := (mat.getD index ndefault).score
  let index' := index + 1
  let index'' := if index' > mat.length && circ then 0 else index'
  if index'' < mat.length then
    rewriteGo circ multi P G (mat.length + 1) mat index'' ps 0
  else mat

/-! ## genomicIsland.py : mk_regions -/

/-- `max_index_node`: last node with the highest score (initialized from
`lst[0]`, then updated on every `>=`, so the later of equal maxima wins). -/
def maxIndexNode (lst : List MatriceNode) : Int × Nat :=
  lst.enum.foldl
    (fun acc p => if p.2.score ≥ acc.1 then (p.2.score, p.1) else acc)
    ((lst.getD 0 ndefault).score, 0)

/-- Python `(new_region[0].stop - new_region[-1].start)`: first appended
gene's stop minus last appended gene's start.  On an empty candidate the
source raises `IndexError`; the embedding reads `gdefault` there. -/
def regionSpan (r : Region) : Int :=
  ((r.genes.headD gdefault).stop : Int) - ((r.genes.getLastD gdefault).start : Int)

/-- `new_region.score = val`: the score assignment done by `mk_regions`
right after extraction. -/
def withScore (r : Region) (s : Int) : Region :=
  { r with score := s }

/-- The `while val >= min_score` loop of `mk_regions`.  `kept` is the
source's `contig_regions` (a Python set; every kept region is freshly
extracted with a non-empty gene list disjoint from all previously kept ones,
so each `add` grows the set and a list is a faithful model), and `cands`
additionally records every extracted candidate, kept or not — the source
returns only `kept`.  The `rgp_id` passed to `extract_rgp` is
`len(contig_regions)`, i.e. `kept.length`. -/
def mkRegionsGo (c : Contig) (multi : List Nat) (minLen minScore : Int)
    (P G : Int) (nm : Naming) :
    Nat → List MatriceNode → List Region → List Region →
    List Region × List Region
  | 0, _, kept, cands => (kept, cands)
  | fuel + 1, mat, kept, cands =>
    let vi := maxIndexNode mat
    if vi.1 ≥ minScore then
      let er := extractRgp c mat vi.2 kept.length nm
      let r := withScore er.2 vi.1
      let kept' := if regionSpan r > minLen then kept ++ [r] else kept
      let mat' := rewriteMatrix c.isCircular er.1 vi.2 P G multi
      mkRegionsGo c multi minLen minScore P G nm fuel mat' kept' (cands ++ [r])
    else (kept, cands)

/-- `mk_regions` on an already-initialized matrix; `.1` is the set the
source returns, `.2` the full candidate trace. -/
def mkRegions (fuel : Nat) (c : Contig) (mat : List MatriceNode)
    (multi : List Nat) (minLen minScore : Int) (P G : Int) (nm : Naming) :
    List Region × List Region :=
  mkRegionsGo c multi minLen minScore P G nm fuel mat [] []

/-! ## Specification-side quantities -/

/-- Value of the loop counter `nb_perc` after processing the genes `gs`
starting from seed `n`: `+1` on each non-multigenic persistent gene, reset
to `0` otherwise. -/
def nbAt (multi : List Nat) : Nat → List Gene → Nat
  | n, [] => n
  | n, g :: rest => nbAt multi (if persNM multi g then n + 1 else 0) rest

/-- Length of the maximal all-persistent (non-multigenic) suffix of `gs`:
the declarative value of `nb_perc` when the walk has consumed `gs`. -/
def persRun (multi : List Nat) (gs : List Gene) : Nat :=
  ((gs.reverse).takeWhile (persNM multi)).length

/-- The `nb_perc` value seen by position `j` of a walk that started with
seed `nb`: the seed still matters only while every processed gene was
persistent. -/
def cntSpec (multi : List Nat) (nb : Nat) (genes : List Gene) (j : Nat) : Nat :=
  if (genes.take j).all (persNM multi) then nb + j
  else persRun multi (genes.take j)

/-- The delta the walk applies at position `j` of `genes`, for counter seed
`nb`: `-P^nb_perc` on a non-multigenic persistent gene, `+G` otherwise. -/
def fpDelta (multi : List Nat) (P G : Int) (nb : Nat) (genes : List Gene)
    (j : Nat) : Int :=
  if persNM multi (genes.getD j gdefault) then -(P ^ cntSpec multi nb genes j)
  else G

/-- Pre-clamp score the wraparound walk of `init_matrices` computes at walk
position `i`: the delta rule (counter re-seeded at 0 when the walk starts)
plus the last node's score — the loop variable `prev` is never reassigned in
the source loop and the walk never touches the last node, so that score is
fixed. -/
def circScore (multi : List Nat) (P G : Int) (gs : List Gene)
    (lastScore : Int) (i : Nat) : Int :=
  (if persNM multi (gs.getD i gdefault) then
    -(P ^ nbAt multi 0 (gs.take i)) else G) + lastScore

/-- Position right after the last node the wraparound walk modifies, for a
walk currently at `c` heading for the stop index `z`: one past the first
position whose recomputed score is negative (the state leaves "in-region"),
or `z` itself (the walk reaches `zero_ind`) when no such position exists
before it. -/
def walkEndFrom (multi : List Nat) (P G : Int) (gs : List Gene)
    (lastScore : Int) (c z : Nat) : Nat :=
  match (List.range' c (z - c)).find?
      (fun i => decide (circScore multi P G gs lastScore i < 0)) with
  | some i => i + 1
  | none => z

/-- Number of state-1 nodes of a matrix. -/
def countS1 (mat : List MatriceNode) : Nat :=
  mat.countP (·.state)

/-- Total gene count of a list of regions. -/
def sumGenes (rs : List Region) : Nat :=
  (rs.map (·.genes.length)).sum

/-! ## Concrete inputs used by counterexamples and witnesses -/

/-- A persistent gene with family `i`, spanning `[100*i, 100*i + 50]`. -/
def gP (i : Nat) : Gene :=
  { family := i, part := Part.persistent, start := 100 * i, stop := 100 * i + 50 }

/-- A shell ("variable") gene with family `i`. -/
def gS (i : Nat) : Gene :=
  { family := i, part := Part.shell, start := 100 * i, stop := 100 * i + 50 }

/-- The linear contig of the spec's first scenario:
`[persistent, persistent, persistent, variable, variable, variable, variable]`. -/
def exC2 : Contig :=
  { name := "c", orgName := "o",
    genes := [gP 0, gP 1, gP 2, gS 3, gS 4, gS 5, gS 6], isCircular := false }

/-- A circular contig whose first pass produces zero-state nodes at indices
0 and 4 and ends in state 1, so the wraparound pass of `init_matrices`
runs. -/
def exC5 : Contig :=
  { name := "c5", orgName := "o",
    genes := [gP 0, gS 1, gS 2, gP 3, gP 4, gS 5, gS 6, gS 7, gS 8, gS 9],
    isCircular := true }

/-- A two-node matrix of a circular contig right after an extraction that
started (and ended) at the last node: node 1 is consumed, node 0 is still
live with a stale score. -/
def matC6 : List MatriceNode :=
  [ { state := true, score := 5, prev := none, gene := gS 0 },
    { state := false, score := 0, prev := some 0, gene := gS 1 } ]

/-! ## Helper lemmas -/

theorem takeWhile_append_of_all {α : Type} (p : α → Bool) :
    ∀ (xs ys : List α), xs.all p = true →
      (xs ++ ys).takeWhile p = xs ++ ys.takeWhile p
  | [], _, _ => rfl
  | x :: xs, ys, h => by
    simp only [List.all_cons, Bool.and_eq_true] at h
    simp [List.takeWhile_cons, h.1, takeWhile_append_of_all p xs ys h.2]

theorem takeWhile_append_of_not_all {α : Type} (p : α → Bool) :
    ∀ (xs ys : List α), xs.all p = false →
      (xs ++ ys).takeWhile p = xs.takeWhile p
  | [], _, h => by simp at h
  | x :: xs, ys, h => by
    by_cases hx : p x
    · simp only [List.all_cons, hx, Bool.true_and] at h
      simp [List.takeWhile_cons, hx, takeWhile_append_of_not_all p xs ys h]
    · simp [List.takeWhile_cons, hx]

theorem all_reverse_eq {α : Type} (p : α → Bool) (l : List α) :
    l.reverse.all p = l.all p := by
  induction l with
  | nil => rfl
  | cons x l ih => simp [List.all_append, ih, Bool.and_comm]

theorem takeWhile_eq_self_of_all {α : Type} (p : α → Bool) (xs : List α)
    (h : xs.all p = true) : xs.takeWhile p = xs := by
  have := takeWhile_append_of_all p xs [] h
  simpa using this

theorem persRun_of_all (multi : List Nat) (l : List Gene)
    (h : l.all (persNM multi) = true) : persRun multi l = l.length := by
  unfold persRun
  rw [takeWhile_eq_self_of_all _ _ (by rw [all_reverse_eq]; exact h),
    List.length_reverse]

theorem persRun_cons_of_all (multi : List Nat) (g : Gene) (l : List Gene)
    (h : l.all (persNM multi) = true) :
    persRun multi (g :: l) = l.length + (if persNM multi g then 1 else 0) := by
  unfold persRun
  rw [List.reverse_cons,
    takeWhile_append_of_all _ _ _ (by rw [all_reverse_eq]; exact h)]
  by_cases hg : persNM multi g <;> simp [List.takeWhile_cons, hg]

theorem persRun_cons_of_not_all (multi : List Nat) (g : Gene) (l : List Gene)
    (h : l.all (persNM multi) = false) :
    persRun multi (g :: l) = persRun multi l := by
  unfold persRun
  rw [List.reverse_cons,
    takeWhile_append_of_not_all _ _ _ (by rw [all_reverse_eq]; exact h)]

theorem cntSpec_zero (multi : List Nat) (nb : Nat) (genes : List Gene) :
    cntSpec multi nb genes 0 = nb := by
  simp [cntSpec]

theorem cntSpec_succ (multi : List Nat) (nb : Nat) (g : Gene)
    (rest : List Gene) (j : Nat) (h : j ≤ rest.length) :
    cntSpec multi nb (g :: rest) (j + 1) =
      cntSpec multi (if persNM multi g then nb + 1 else 0) rest j := by
  unfold cntSpec
  rw [List.take_succ_cons]
  cases hg : persNM multi g with
  | true =>
    cases ht : (rest.take j).all (persNM multi) with
    | true =>
      simp [List.all_cons, hg, ht]
      omega
    | false =>
      simp [List.all_cons, hg, ht, persRun_cons_of_not_all _ _ _ ht]
  | false =>
    cases ht : (rest.take j).all (persNM multi) with
    | true =>
      have hlen : (rest.take j).length = j := by
        rw [List.length_take]; omega
      simp [List.all_cons, hg, ht, persRun_cons_of_all _ _ _ ht, hlen]
    | false =>
      simp [List.all_cons, hg, ht, persRun_cons_of_not_all _ _ _ ht]

theorem cntSpec_zero_seed (multi : List Nat) (genes : List Gene) (j : Nat)
    (h : j ≤ genes.length) :
    cntSpec multi 0 genes j = persRun multi (genes.take j) := by
  unfold cntSpec
  split
  · next hall => rw [persRun_of_all _ _ hall, List.length_take]; omega
  · rfl

theorem clamp_eq_max (s : Int) : (if 0 ≤ s then s else 0) = max 0 s := by
  rw [max_def]

theorem fpDelta_succ (multi : List Nat) (P G : Int) (nb : Nat) (g : Gene)
    (rest : List Gene) (j : Nat) (h : j ≤ rest.length) :
    fpDelta multi P G nb (g :: rest) (j + 1) =
      fpDelta multi P G (if persNM multi g then nb + 1 else 0) rest j := by
  unfold fpDelta
  rw [List.getD_cons_succ, cntSpec_succ _ _ _ _ _ h]

theorem firstPassGo_cons (multi : List Nat) (P G : Int) (nb : Nat)
    (ps : Option Int) (idx : Nat) (g : Gene) (rest : List Gene) :
    firstPassGo multi P G nb ps idx (g :: rest) =
      fpNode multi P G nb ps idx g ::
        firstPassGo multi P G (if persNM multi g then nb + 1 else 0)
          (some (fpNode multi P G nb ps idx g).score) (idx + 1) rest := by
  rfl

/-- Indexed description of the first-pass loop: node `j`'s stored score is
the clamp of `delta + previous stored score` and its state records the sign
of the pre-clamp value, with `delta` determined by `cntSpec` (the `nb_perc`
counter). -/
theorem firstPassGo_spec (multi : List Nat) (P G : Int) (genes : List Gene) :
    ∀ (nb : Nat) (ps : Option Int) (idx j : Nat), j < genes.length →
      (((firstPassGo multi P G nb ps idx genes).getD j ndefault).score =
        max 0 (fpDelta multi P G nb genes j +
          (if j = 0 then ps.getD 0
           else ((firstPassGo multi P G nb ps idx genes).getD (j - 1)
             ndefault).score))) ∧
      (((firstPassGo multi P G nb ps idx genes).getD j ndefault).state =
        decide (0 ≤ fpDelta multi P G nb genes j +
          (if j = 0 then ps.getD 0
           else ((firstPassGo multi P G nb ps idx genes).getD (j - 1)
             ndefault).score))) := by
  induction genes with
  | nil => intro nb ps idx j hj; simp at hj
  | cons g rest ih =>
    intro nb ps idx j hj
    rw [firstPassGo_cons]
    match j with
    | 0 =>
      unfold fpDelta fpNode
      rw [cntSpec_zero]
      simp [clamp_eq_max]
    | j' + 1 =>
      have hj' : j' < rest.length := by
        rw [List.length_cons] at hj; omega
      have ihj := ih (if persNM multi g then nb + 1 else 0)
        (some (fpNode multi P G nb ps idx g).score) (idx + 1) j' hj'
      rw [fpDelta_succ _ _ _ _ _ _ _ (Nat.le_of_lt hj')]
      simp only [List.getD_cons_succ, Nat.succ_ne_zero, if_false,
        Nat.succ_sub_one]
      match j' with
      | 0 =>
        simp only [List.getD_cons_zero]
        simpa using ihj
      | k + 1 =>
        simp only [List.getD_cons_succ]
        simpa using ihj

/-! ## C1 — the per-gene scoring rule of init_matrices -/

/-- C1: during the initialization walk (first pass of `init_matrices`), with
penalty `P ≥ 1` and gain `G ≥ 1`, node `j` receives
`delta = -P^nb_perc` when its gene is persistent and non-multigenic (where
`nb_perc` is the length of the persistent run immediately before `j` — the
counter is incremented on such genes and reset by any other gene, per
`cntSpec`/`persRun`), and `delta = +G` otherwise; its stored score is
`max(0, delta + previous stored score)` (0 when there is no predecessor)
and its state is 1 iff the pre-clamp score is `≥ 0`. -/
theorem rgp_c1 (multi : List Nat) (P G : Int) (hP : 1 ≤ P) (hG : 1 ≤ G)
    (genes : List Gene) (j : Nat) (hj : j < genes.length) :
    ((firstPass multi P G genes).getD j ndefault).score =
      max 0 ((if persNM multi (genes.getD j gdefault) then
          -(P ^ persRun multi (genes.take j)) else G) +
        (if j = 0 then 0
         else ((firstPass multi P G genes).getD (j - 1) ndefault).score)) ∧
    ((firstPass multi P G genes).getD j ndefault).state =
      decide (0 ≤ (if persNM multi (genes.getD j gdefault) then
          -(P ^ persRun multi (genes.take j)) else G) +
        (if j = 0 then 0
         else ((firstPass multi P G genes).getD (j - 1) ndefault).score)) := by
  have h := firstPassGo_spec multi P G genes 0 none 0 j hj
  have hc : cntSpec multi 0 genes j = persRun multi (genes.take j) :=
    cntSpec_zero_seed _ _ _ (Nat.le_of_lt hj)
  unfold firstPass
  simpa [fpDelta, hc] using h

/-- Witness for C1 at the scenario contig, position 3 (the first variable
gene): delta is `+1` and the stored score is `max 0 (1 + 0) = 1`. -/
theorem rgp_c1_witness :
    ((firstPass [] 3 1 exC2.genes).getD 3 ndefault).score = 1 := by
  have h := (rgp_c1 [] 3 1 (by norm_num) (by norm_num) exC2.genes 3
    (by decide)).1
  rw [h]
  decide

/-! ## Counting lemmas for the consumption invariant -/

theorem getD_len_le {α : Type} (l : List α) (d : α) :
    ∀ i, l.length ≤ i → l.getD i d = d := by
  induction l with
  | nil => intro i _; simp [List.getD]
  | cons x t ih =>
    intro i h
    match i with
    | 0 => simp at h
    | k + 1 =>
      rw [List.getD_cons_succ]
      exact ih k (by simp at h; omega)

theorem countS1_set_false (mat : List MatriceNode) :
    ∀ (i : Nat) (a : MatriceNode), i < mat.length →
      (mat.getD i ndefault).state = true → a.state = false →
      countS1 (mat.set i a) + 1 = countS1 mat := by
  induction mat with
  | nil => intro i a hi _ _; simp at hi
  | cons x t ih =>
    intro i a hi hold ha
    match i with
    | 0 =>
      rw [List.getD_cons_zero] at hold
      simp [countS1, List.countP_cons, hold, ha]
    | k + 1 =>
      rw [List.getD_cons_succ] at hold
      have hk : k < t.length := by simp at hi; omega
      have := ih k a hk hold ha
      simp only [List.set_cons_succ, countS1, List.countP_cons] at *
      omega

theorem countS1_set_le (mat : List MatriceNode) :
    ∀ (i : Nat) (a : MatriceNode), (mat.getD i ndefault).state = true →
      countS1 (mat.set i a) ≤ countS1 mat := by
  induction mat with
  | nil => intro i a _; simp
  | cons x t ih =>
    intro i a hold
    match i with
    | 0 =>
      rw [List.getD_cons_zero] at hold
      simp only [List.set_cons_zero, countS1, List.countP_cons, hold]
      cases ha : a.state <;> simp
    | k + 1 =>
      rw [List.getD_cons_succ] at hold
      have := ih k a hold
      simp only [List.set_cons_succ, countS1, List.countP_cons] at *
      omega

theorem countS1_le_length (mat : List MatriceNode) :
    countS1 mat ≤ mat.length :=
  List.countP_le_length _

/-- Each gene appended by the extraction walk flips exactly one state-1 node
to state 0, so the walk's appends are bounded by the state-1 count. -/
theorem extractGo_count :
    ∀ (fuel : Nat) (mat : List MatriceNode) (idx : Nat) (r : Region),
      countS1 (extractGo fuel mat idx r).1 +
        (extractGo fuel mat idx r).2.genes.length ≤
      countS1 mat + r.genes.length := by
  intro fuel
  induction fuel with
  | zero => intro mat idx r; simp [extractGo]
  | succ f ih =>
    intro mat idx r
    by_cases hs : (mat.getD idx ndefault).state = true
    · have hi : idx < mat.length := by
        by_contra hI
        rw [getD_len_le mat ndefault idx (by omega)] at hs
        simp [ndefault] at hs
      simp only [extractGo]
      rw [if_pos hs]
      cases hp : (mat.getD idx ndefault).prev with
      | none =>
        have hset := countS1_set_false mat idx
          { state := false, score := 0, prev := none,
            gene := (mat.getD idx ndefault).gene } hi hs rfl
        simp only [List.length_append, List.length_cons, List.length_nil]
        omega
      | some j =>
        have hset := countS1_set_false mat idx
          { state := false, score := 0, prev := some j,
            gene := (mat.getD idx ndefault).gene } hi hs rfl
        have hrec := ih (mat.set idx
          { state := false, score := 0, prev := some j,
            gene := (mat.getD idx ndefault).gene }) j
          { r with genes := r.genes ++ [(mat.getD idx ndefault).gene] }
        simp only [List.length_append, List.length_cons, List.length_nil]
          at hrec ⊢
        omega
    · simp only [extractGo]
      rw [if_neg hs]

/-- The rescoring walk never turns a state-0 node back on, so the state-1
count never grows. -/
theorem rewriteGo_count (circ : Bool) (multi : List Nat) (P G : Int) :
    ∀ (fuel : Nat) (mat : List MatriceNode) (idx : Nat) (ps : Int) (nb : Nat),
      countS1 (rewriteGo circ multi P G fuel mat idx ps nb) ≤ countS1 mat := by
  intro fuel
  induction fuel with
  | zero => intro mat idx ps nb; simp [rewriteGo]
  | succ f ih =>
    intro mat idx ps nb
    by_cases hs : (mat.getD idx ndefault).state = true
    · have hle := countS1_set_le mat idx
        (rwNode multi P G nb ps (mat.getD idx ndefault)) hs
      simp only [rewriteGo]
      rw [if_pos hs]
      split_ifs with h1 h2
      · exact (ih _ _ _ _).trans hle
      · exact hle
      · exact (ih _ _ _ _).trans hle
    · simp only [rewriteGo]
      rw [if_neg hs]

theorem rewriteMatrix_count (circ : Bool) (mat : List MatriceNode)
    (index : Nat) (P G : Int) (multi : List Nat) :
    countS1 (rewriteMatrix circ mat index P G multi) ≤ countS1 mat := by
  simp only [rewriteMatrix]
  split_ifs <;>
    first
      | exact rewriteGo_count circ multi P G _ _ _ _ _
      | exact le_refl _

theorem sumGenes_append_one (rs : List Region) (r : Region) :
    sumGenes (rs ++ [r]) = sumGenes rs + r.genes.length := by
  simp [sumGenes]

theorem extractRgp_count (c : Contig) (mat : List MatriceNode)
    (idx rgpId : Nat) (nm : Naming) :
    countS1 (extractRgp c mat idx rgpId nm).1 +
      (extractRgp c mat idx rgpId nm).2.genes.length ≤ countS1 mat := by
  have h := extractGo_count (mat.length + 1) mat idx
    { name := mkRegionName nm c rgpId, genes := [], score := 0 }
  simpa [extractRgp] using h

/-- Across the whole extraction loop, the total gene count of the extracted
candidates is bounded by the number of live (state-1) nodes. -/
theorem mkRegionsGo_sum (c : Contig) (multi : List Nat)
    (minLen minScore P G : Int) (nm : Naming) :
    ∀ (fuel : Nat) (mat : List MatriceNode) (kept cands : List Region),
      sumGenes (mkRegionsGo c multi minLen minScore P G nm fuel mat
        kept cands).2 ≤ countS1 mat + sumGenes cands := by
  intro fuel
  induction fuel with
  | zero => intro mat kept cands; simp [mkRegionsGo]
  | succ f ih =>
    intro mat kept cands
    by_cases hv : (maxIndexNode mat).1 ≥ minScore
    · simp only [mkRegionsGo]
      rw [if_pos hv]
      have hext := extractRgp_count c mat (maxIndexNode mat).2 kept.length nm
      have hrw := rewriteMatrix_count c.isCircular
        (extractRgp c mat (maxIndexNode mat).2 kept.length nm).1
        (maxIndexNode mat).2 P G multi
      have hihp := ih
        (rewriteMatrix c.isCircular
          (extractRgp c mat (maxIndexNode mat).2 kept.length nm).1
          (maxIndexNode mat).2 P G multi)
        (if regionSpan (withScore (extractRgp c mat (maxIndexNode mat).2
              kept.length nm).2 (maxIndexNode mat).1) > minLen
         then kept ++ [withScore (extractRgp c mat (maxIndexNode mat).2
              kept.length nm).2 (maxIndexNode mat).1]
         else kept)
        (cands ++ [withScore (extractRgp c mat (maxIndexNode mat).2
              kept.length nm).2 (maxIndexNode mat).1])
      rw [sumGenes_append_one] at hihp
      have hgeq : (withScore (extractRgp c mat (maxIndexNode mat).2
            kept.length nm).2 (maxIndexNode mat).1).genes.length =
          (extractRgp c mat (maxIndexNode mat).2
            kept.length nm).2.genes.length := rfl
      rw [hgeq] at hihp
      omega
    · simp only [mkRegionsGo]
      rw [if_neg hv]
      exact Nat.le_add_left _ _

theorem firstPassGo_length (multi : List Nat) (P G : Int) :
    ∀ (genes : List Gene) (nb : Nat) (ps : Option Int) (idx : Nat),
      (firstPassGo multi P G nb ps idx genes).length = genes.length := by
  intro genes
  induction genes with
  | nil => intro nb ps idx; rfl
  | cons g rest ih =>
    intro nb ps idx
    rw [firstPassGo_cons]
    simp [ih]

theorem firstPass_length (multi : List Nat) (P G : Int) (genes : List Gene) :
    (firstPass multi P G genes).length = genes.length :=
  firstPassGo_length multi P G genes 0 none 0

theorem circWalk_length (multi : List Nat) (P G : Int) :
    ∀ (fuel : Nat) (mat : List MatriceNode) (c z : Nat) (ps : Int) (nb : Nat),
      (circWalk multi P G fuel mat c z ps nb).length = mat.length := by
  intro fuel
  induction fuel with
  | zero => intro mat c z ps nb; rfl
  | succ f ih =>
    intro mat c z ps nb
    simp only [circWalk]
    split_ifs
    · rfl
    · rw [ih]; simp
    · simp

theorem initMatrices_length (c : Contig) (multi : List Nat) (P G : Int) :
    (initMatrices c multi P G).length = c.genes.length := by
  simp only [initMatrices]
  split_ifs with h
  · cases hz : lastZeroIdx (firstPass multi P G c.genes) with
    | none => exact firstPass_length multi P G c.genes
    | some z =>
      rw [circWalk_length]
      simp [rewiredFP, firstPass_length]
  · exact firstPass_length multi P G c.genes

/-! ## C4 — genes are consumed at most once -/

/-- C4: running the whole extraction loop of `mk_regions` on an initialized
matrix (for any fuel, i.e. any number of loop iterations), the sum of the
gene counts of all extracted candidate regions — kept or rejected — never
exceeds the contig's gene count: state 0 is absorbing, each appended gene
flips one state-1 node off, and `rewrite_matrix` never turns a node back
on. -/
theorem rgp_c4 (c : Contig) (multi : List Nat)
    (P G minLen minScore : Int) (nm : Naming) (fuel : Nat) :
    sumGenes (mkRegions fuel c (initMatrices c multi P G) multi minLen
      minScore P G nm).2 ≤ c.genes.length := by
  have h := mkRegionsGo_sum c multi minLen minScore P G nm fuel
    (initMatrices c multi P G) [] []
  have h2 := countS1_le_length (initMatrices c multi P G)
  rw [initMatrices_length] at h2
  have h3 : sumGenes ([] : List Region) = 0 := rfl
  unfold mkRegions
  omega

theorem extractGo_name :
    ∀ (fuel : Nat) (mat : List MatriceNode) (idx : Nat) (r : Region),
      (extractGo fuel mat idx r).2.name = r.name := by
  intro fuel
  induction fuel with
  | zero => intro mat idx r; rfl
  | succ f ih =>
    intro mat idx r
    by_cases hs : (mat.getD idx ndefault).state = true
    · simp only [extractGo]
      rw [if_pos hs]
      cases hp : (mat.getD idx ndefault).prev with
      | none => rfl
      | some j => exact ih _ _ _
    · simp only [extractGo]
      rw [if_neg hs]

theorem extractRgp_name (c : Contig) (mat : List MatriceNode)
    (idx rgpId : Nat) (nm : Naming) :
    (extractRgp c mat idx rgpId nm).2.name = mkRegionName nm c rgpId := by
  unfold extractRgp
  rw [extractGo_name]

/-- The kept regions produced by the extraction loop extend the accumulator
with regions named consecutively from the accumulator's length: every
extraction — kept or rejected — is named with the *current* kept count, so a
rejected candidate does not advance the index. -/
theorem mkRegionsGo_names (c : Contig) (multi : List Nat)
    (minLen minScore P G : Int) (nm : Naming) :
    ∀ (fuel : Nat) (mat : List MatriceNode) (kept cands : List Region),
      ∃ S : List Region,
        (mkRegionsGo c multi minLen minScore P G nm fuel mat kept cands).1 =
          kept ++ S ∧
        ∀ j, j < S.length →
          (S.getD j rdefault).name = mkRegionName nm c (kept.length + j) := by
  intro fuel
  induction fuel with
  | zero =>
    intro mat kept cands
    exact ⟨[], by simp [mkRegionsGo], by intro j hj; simp at hj⟩
  | succ f ih =>
    intro mat kept cands
    by_cases hv : (maxIndexNode mat).1 ≥ minScore
    · simp only [mkRegionsGo]
      rw [if_pos hv]
      by_cases hl : regionSpan (withScore (extractRgp c mat
          (maxIndexNode mat).2 kept.length nm).2 (maxIndexNode mat).1) >
          minLen
      · rw [if_pos hl]
        obtain ⟨S', h1, h2⟩ := ih
          (rewriteMatrix c.isCircular (extractRgp c mat (maxIndexNode mat).2
            kept.length nm).1 (maxIndexNode mat).2 P G multi)
          (kept ++ [withScore (extractRgp c mat (maxIndexNode mat).2
            kept.length nm).2 (maxIndexNode mat).1])
          (cands ++ [withScore (extractRgp c mat (maxIndexNode mat).2
            kept.length nm).2 (maxIndexNode mat).1])
        refine ⟨withScore (extractRgp c mat (maxIndexNode mat).2
          kept.length nm).2 (maxIndexNode mat).1 :: S', ?_, ?_⟩
        · rw [h1, List.append_assoc]
          rfl
        · intro j hj
          match j with
          | 0 =>
            show (withScore (extractRgp c mat (maxIndexNode mat).2
              kept.length nm).2 (maxIndexNode mat).1).name = _
            have : (withScore (extractRgp c mat (maxIndexNode mat).2
                kept.length nm).2 (maxIndexNode mat).1).name =
                (extractRgp c mat (maxIndexNode mat).2
                  kept.length nm).2.name := rfl
            rw [this, extractRgp_name, Nat.add_zero]
          | k + 1 =>
            rw [List.getD_cons_succ]
            have hk : k < S'.length := by
              rw [List.length_cons] at hj; omega
            have := h2 k hk
            rw [this]
            have harg : (kept ++ [withScore (extractRgp c mat
                (maxIndexNode mat).2 kept.length nm).2
                (maxIndexNode mat).1]).length + k = kept.length + (k + 1) := by
              rw [List.length_append]
              simp only [List.length_cons, List.length_nil]
              omega
            rw [harg]
      · rw [if_neg hl]
        exact ih _ kept _
    · simp only [mkRegionsGo]
      rw [if_neg hv]
      exact ⟨[], by simp, by intro j hj; simp at hj⟩

/-! ## C10 — kept regions are named with consecutive indices -/

/-- C10: in `mk_regions` the `rgp_id` used to name an extraction is
`len(contig_regions)`, the number of regions kept so far, and a candidate
rejected by the `min_length` filter does not advance it — so for every
matrix, parameters and fuel, the `j`-th kept region of a contig is named
with index `j`; the kept regions carry consecutive indices `0..k-1`. -/
theorem rgp_c10 (c : Contig) (multi : List Nat) (minLen minScore P G : Int)
    (nm : Naming) (fuel : Nat) (mat : List MatriceNode) (j : Nat)
    (hj : j < (mkRegions fuel c mat multi minLen minScore P G nm).1.length) :
    ((mkRegions fuel c mat multi minLen minScore P G nm).1.getD j
      rdefault).name = mkRegionName nm c j := by
  obtain ⟨S, h1, h2⟩ :=
    mkRegionsGo_names c multi minLen minScore P G nm fuel mat [] []
  unfold mkRegions at hj ⊢
  rw [h1] at hj ⊢
  simpa using h2 j (by simpa using hj)

/-- Witness for C10: with `min_length = 0` the scenario contig keeps one
region, named with index 0. -/
theorem rgp_c10_witness :
    ((mkRegions 10 exC2 (initMatrices exC2 [] 3 1) [] 0 4 3 1
      Naming.contig).1.getD 0 rdefault).name =
      mkRegionName Naming.contig exC2 0 :=
  rgp_c10 exC2 [] 0 4 3 1 Naming.contig 10 (initMatrices exC2 [] 3 1) 0
    (by decide)

/-! ## Helper lemmas for the wraparound characterization -/

theorem getD_set_self {α : Type} (l : List α) :
    ∀ (i : Nat) (a d : α), i < l.length → (l.set i a).getD i d = a := by
  induction l with
  | nil => intro i a d h; simp at h
  | cons x t ih =>
    intro i a d h
    match i with
    | 0 => rfl
    | k + 1 =>
      rw [List.set_cons_succ, List.getD_cons_succ]
      exact ih k a d (by simp at h; omega)

theorem getD_set_ne {α : Type} (l : List α) :
    ∀ (c i : Nat) (a d : α), i ≠ c →
      (l.set c a).getD i d = l.getD i d := by
  induction l with
  | nil => intro c i a d _; rfl
  | cons x t ih =>
    intro c i a d h
    match c, i with
    | 0, 0 => exact absurd rfl h
    | 0, k + 1 =>
      rw [List.set_cons_zero, List.getD_cons_succ, List.getD_cons_succ]
    | m + 1, 0 =>
      rw [List.set_cons_succ]; rfl
    | m + 1, k + 1 =>
      rw [List.set_cons_succ, List.getD_cons_succ, List.getD_cons_succ]
      exact ih m k a d (by omega)

theorem getD_map_gene (mat : List MatriceNode) :
    ∀ i, i < mat.length →
      (mat.map (·.gene)).getD i gdefault = (mat.getD i ndefault).gene := by
  induction mat with
  | nil => intro i h; simp at h
  | cons x t ih =>
    intro i h
    match i with
    | 0 => rfl
    | k + 1 =>
      simp only [List.map_cons, List.getD_cons_succ]
      exact ih k (by simp at h; omega)

theorem map_gene_set (mat : List MatriceNode) :
    ∀ (c : Nat) (a : MatriceNode), a.gene = (mat.getD c ndefault).gene →
      (mat.set c a).map (·.gene) = mat.map (·.gene) := by
  induction mat with
  | nil => intro c a _; rfl
  | cons x t ih =>
    intro c a h
    match c with
    | 0 =>
      rw [List.getD_cons_zero] at h
      simp [List.set_cons_zero, h]
    | k + 1 =>
      rw [List.getD_cons_succ] at h
      simp [List.set_cons_succ, ih k a h]

theorem nbAt_append (multi : List Nat) :
    ∀ (l1 l2 : List Gene) (n : Nat),
      nbAt multi n (l1 ++ l2) = nbAt multi (nbAt multi n l1) l2 := by
  intro l1
  induction l1 with
  | nil => intro l2 n; rfl
  | cons g t ih =>
    intro l2 n
    simp only [List.cons_append, nbAt]
    exact ih l2 _

theorem take_succ_getD {α : Type} (l : List α) (d : α) :
    ∀ n, n < l.length → l.take (n + 1) = l.take n ++ [l.getD n d] := by
  induction l with
  | nil => intro n h; simp at h
  | cons x t ih =>
    intro n h
    match n with
    | 0 => rfl
    | k + 1 =>
      rw [List.take_succ_cons, List.take_succ_cons, List.getD_cons_succ,
        ih k (by simp at h; omega)]
      rfl

theorem nbAt_take_succ (multi : List Nat) (gs : List Gene) (c : Nat)
    (h : c < gs.length) :
    nbAt multi 0 (gs.take (c + 1)) =
      if persNM multi (gs.getD c gdefault) then nbAt multi 0 (gs.take c) + 1
      else 0 := by
  rw [take_succ_getD gs gdefault c h, nbAt_append]
  rfl

theorem walkEndFrom_stop (multi : List Nat) (P G : Int) (gs : List Gene)
    (lastScore : Int) (c z : Nat) (h : z ≤ c) :
    walkEndFrom multi P G gs lastScore c z = z := by
  unfold walkEndFrom
  have h0 : z - c = 0 := by omega
  rw [h0]
  rfl

theorem walkEndFrom_step_pos (multi : List Nat) (P G : Int) (gs : List Gene)
    (lastScore : Int) (c z : Nat) (hcz : c < z)
    (hs : ¬ circScore multi P G gs lastScore c < 0) :
    walkEndFrom multi P G gs lastScore c z =
      walkEndFrom multi P G gs lastScore (c + 1) z := by
  unfold walkEndFrom
  have h1 : z - c = (z - (c + 1)) + 1 := by omega
  rw [h1, List.range'_succ, List.find?_cons_of_neg _ (by simpa using hs)]

theorem walkEndFrom_step_neg (multi : List Nat) (P G : Int) (gs : List Gene)
    (lastScore : Int) (c z : Nat) (hcz : c < z)
    (hs : circScore multi P G gs lastScore c < 0) :
    walkEndFrom multi P G gs lastScore c z = c + 1 := by
  unfold walkEndFrom
  have h1 : z - c = (z - (c + 1)) + 1 := by omega
  rw [h1, List.range'_succ, List.find?_cons_of_pos _ (by simpa using hs)]

theorem walkEndFrom_ge (multi : List Nat) (P G : Int) (gs : List Gene)
    (lastScore : Int) (c z : Nat) (hcz : c ≤ z) :
    c ≤ walkEndFrom multi P G gs lastScore c z := by
  unfold walkEndFrom
  cases hf : (List.range' c (z - c)).find?
      (fun i => decide (circScore multi P G gs lastScore i < 0)) with
  | none => exact hcz
  | some i =>
    have hm := (List.mem_range'_1.mp (List.mem_of_find?_eq_some hf)).1
    have hle : c ≤ i + 1 := by omega
    exact hle

theorem lastZeroIdx_lt (mat : List MatriceNode) (z : Nat)
    (h : lastZeroIdx mat = some z) : z < mat.length := by
  unfold lastZeroIdx at h
  cases hg : (mat.enum.filter (fun p => p.2.state = false)).getLast? with
  | none => rw [hg] at h; simp at h
  | some pr =>
    rw [hg] at h
    simp at h
    have hmem : pr ∈ mat.enum.filter (fun p => p.2.state = false) :=
      List.mem_of_mem_getLast? hg
    have henum : pr ∈ mat.enum := List.mem_of_mem_filter hmem
    have := List.fst_lt_of_mem_enum henum
    omega

theorem firstPassGo_map_gene (multi : List Nat) (P G : Int) :
    ∀ (genes : List Gene) (nb : Nat) (ps : Option Int) (idx : Nat),
      (firstPassGo multi P G nb ps idx genes).map (·.gene) = genes := by
  intro genes
  induction genes with
  | nil => intro nb ps idx; rfl
  | cons g rest ih =>
    intro nb ps idx
    rw [firstPassGo_cons]
    simp only [List.map_cons, ih]
    rfl

theorem firstPass_map_gene (multi : List Nat) (P G : Int) (genes : List Gene) :
    (firstPass multi P G genes).map (·.gene) = genes :=
  firstPassGo_map_gene multi P G genes 0 none 0

/-- Extensional description of the wraparound walk: starting at `c` with
the counter seeded consistently, the walk recomputes exactly the nodes at
positions `c ≤ i < walkEndFrom … c z` — each to
`changes (delta_i + lastScore)` with the counter value `nbAt` of the gene
prefix — and leaves every other node untouched. -/
theorem circWalk_spec (multi : List Nat) (P G : Int) (ps : Int) (z : Nat) :
    ∀ (fuel : Nat) (mat : List MatriceNode) (c nb : Nat),
      c ≤ z → z < mat.length → z ≤ c + fuel →
      nb = nbAt multi 0 ((mat.map (·.gene)).take c) →
      ∀ i, i < mat.length →
        (circWalk multi P G fuel mat c z ps nb).getD i ndefault =
          (if c ≤ i ∧ i < walkEndFrom multi P G (mat.map (·.gene)) ps c z
           then rwNode multi P G (nbAt multi 0 ((mat.map (·.gene)).take i))
             ps (mat.getD i ndefault)
           else mat.getD i ndefault) := by
  intro fuel
  induction fuel with
  | zero =>
    intro mat c nb hcz hz hfuel _ i _
    rw [walkEndFrom_stop _ _ _ _ _ _ _ (by omega)]
    rw [if_neg (by omega : ¬ (c ≤ i ∧ i < z))]
    rfl
  | succ f ih =>
    intro mat c nb hcz hz hfuel hnb i hi
    by_cases hce : c = z
    · simp only [circWalk]
      rw [if_pos hce,
        walkEndFrom_stop _ _ _ _ _ _ _ (by omega),
        if_neg (by omega : ¬ (c ≤ i ∧ i < z))]
    · have hclt : c < z := by omega
      have hcl : c < mat.length := by omega
      simp only [circWalk]
      rw [if_neg hce]
      have hg : (mat.map (·.gene)).getD c gdefault =
          (mat.getD c ndefault).gene := getD_map_gene mat c hcl
      have hsc : rwScore multi P G nb ps (mat.getD c ndefault) =
          circScore multi P G (mat.map (·.gene)) ps c := by
        unfold rwScore circScore
        rw [hg, hnb]
      by_cases hpos : 0 ≤ rwScore multi P G nb ps (mat.getD c ndefault)
      · rw [if_pos hpos]
        have hgene : (rwNode multi P G nb ps (mat.getD c ndefault)).gene =
            (mat.getD c ndefault).gene := rfl
        have hmap : ((mat.set c
            (rwNode multi P G nb ps (mat.getD c ndefault))).map (·.gene)) =
            mat.map (·.gene) := map_gene_set mat c _ hgene
        have hnb' : rwNb multi nb (mat.getD c ndefault) =
            nbAt multi 0 (((mat.set c (rwNode multi P G nb ps
              (mat.getD c ndefault))).map (·.gene)).take (c + 1)) := by
          rw [hmap, nbAt_take_succ multi _ c
            (by rw [List.length_map]; exact hcl)]
          unfold rwNb
          rw [hg, hnb]
        have hrec := ih (mat.set c (rwNode multi P G nb ps
            (mat.getD c ndefault))) (c + 1) _ (by omega)
          (by rw [List.length_set]; exact hz) (by omega) hnb' i
          (by rw [List.length_set]; exact hi)
        rw [hrec, hmap]
        have he : walkEndFrom multi P G (mat.map (·.gene)) ps c z =
            walkEndFrom multi P G (mat.map (·.gene)) ps (c + 1) z :=
          walkEndFrom_step_pos _ _ _ _ _ _ _ hclt (by rw [← hsc]; omega)
        rw [← he]
        have hege : c + 1 ≤ walkEndFrom multi P G (mat.map (·.gene)) ps c z := by
          rw [he]
          exact walkEndFrom_ge _ _ _ _ _ _ _ (by omega)
        by_cases hic : i = c
        · subst hic
          rw [if_neg (by omega :
              ¬ (i + 1 ≤ i ∧ i < walkEndFrom multi P G (mat.map (·.gene))
                ps i z)),
            if_pos (⟨le_refl i, by omega⟩ :
              i ≤ i ∧ i < walkEndFrom multi P G (mat.map (·.gene)) ps i z),
            getD_set_self mat i _ _ hcl, ← hnb]
        · rw [getD_set_ne mat c i _ _ hic]
          by_cases hcond : c ≤ i ∧
              i < walkEndFrom multi P G (mat.map (·.gene)) ps c z
          · rw [if_pos (⟨by omega, hcond.2⟩ : c + 1 ≤ i ∧
                i < walkEndFrom multi P G (mat.map (·.gene)) ps c z),
              if_pos hcond]
          · rw [if_neg (by omega : ¬ (c + 1 ≤ i ∧
                i < walkEndFrom multi P G (mat.map (·.gene)) ps c z)),
              if_neg hcond]
      · rw [if_neg hpos]
        have hneg : circScore multi P G (mat.map (·.gene)) ps c < 0 := by
          rw [← hsc]; omega
        rw [walkEndFrom_step_neg _ _ _ _ _ _ _ hclt hneg]
        by_cases hic : i = c
        · subst hic
          rw [getD_set_self mat i _ _ hcl,
            if_pos (⟨le_refl i, by omega⟩ : i ≤ i ∧ i < i + 1), ← hnb]
        · rw [getD_set_ne mat c i _ _ hic,
            if_neg (by omega : ¬ (c ≤ i ∧ i < c + 1))]

/-! ## C5 amended — wraparound stops at the last first-pass zero node -/

/-- C5 amended: when a circular contig's first pass ends in state 1 with at
least one zero-state node (`lastZeroIdx = some z` — `zero_ind` holds the
*last* zero node), `init_matrices` rewires the first node's predecessor to
the last node and re-walks from node 0, giving each visited node the score
`delta + last node's score` (the loop's `prev` stays bound to the last
node), and the final matrix equals the rewired first pass with exactly the
nodes `i < walkEndFrom … 0 z` recomputed: the walk stops right after the
first recomputed score that is negative (the state leaves "in-region"), or
on reaching `z`, the last node that had state 0 in the first pass. -/
theorem rgp_c5_amended (c : Contig) (multi : List Nat) (P G : Int)
    (hcirc : c.isCircular = true)
    (hlast : (((firstPass multi P G c.genes).getLast?).map (·.state)).getD
      false = true)
    (z : Nat) (hz : lastZeroIdx (firstPass multi P G c.genes) = some z) :
    ((initMatrices c multi P G).getD 0 ndefault).prev =
      some ((firstPass multi P G c.genes).length - 1) ∧
    ∀ i, i < (firstPass multi P G c.genes).length →
      (initMatrices c multi P G).getD i ndefault =
        (if i < walkEndFrom multi P G c.genes
            (lastScoreOf (firstPass multi P G c.genes)) 0 z
         then rwNode multi P G (nbAt multi 0 (c.genes.take i))
           (lastScoreOf (firstPass multi P G c.genes))
           ((rewiredFP (firstPass multi P G c.genes)).getD i ndefault)
         else (rewiredFP (firstPass multi P G c.genes)).getD i ndefault) := by
  have hzlt : z < (firstPass multi P G c.genes).length :=
    lastZeroIdx_lt _ _ hz
  have hinit : initMatrices c multi P G =
      circWalk multi P G (firstPass multi P G c.genes).length
        (rewiredFP (firstPass multi P G c.genes)) 0 z
        (lastScoreOf (firstPass multi P G c.genes)) 0 := by
    simp only [initMatrices]
    rw [hcirc, hlast, hz]
    rfl
  have hRlen : (rewiredFP (firstPass multi P G c.genes)).length =
      (firstPass multi P G c.genes).length := by
    unfold rewiredFP
    rw [List.length_set]
  have hmapR : (rewiredFP (firstPass multi P G c.genes)).map (·.gene) =
      c.genes := by
    unfold rewiredFP
    rw [map_gene_set (firstPass multi P G c.genes) 0
      { (firstPass multi P G c.genes).getD 0 ndefault with
        prev := some ((firstPass multi P G c.genes).length - 1) } rfl]
    exact firstPass_map_gene multi P G c.genes
  have hspec := circWalk_spec multi P G
    (lastScoreOf (firstPass multi P G c.genes)) z
    (firstPass multi P G c.genes).length
    (rewiredFP (firstPass multi P G c.genes)) 0 0
    (Nat.zero_le z) (by rw [hRlen]; exact hzlt) (by omega) rfl
  constructor
  · rw [hinit]
    have h0 := hspec 0 (by rw [hRlen]; omega)
    rw [hmapR] at h0
    rw [h0]
    have hprev : ∀ s nd, (rwNode multi P G s
        (lastScoreOf (firstPass multi P G c.genes)) nd).prev = nd.prev :=
      fun _ _ => rfl
    have hR0 : (rewiredFP (firstPass multi P G c.genes)).getD 0 ndefault =
        { (firstPass multi P G c.genes).getD 0 ndefault with
          prev := some ((firstPass multi P G c.genes).length - 1) } := by
      unfold rewiredFP
      exact getD_set_self _ 0 _ _ (by omega)
    split_ifs
    · rw [hprev, hR0]
    · rw [hR0]
  · intro i hilen
    rw [hinit]
    have hi' := hspec i (by rw [hRlen]; exact hilen)
    rw [hmapR] at hi'
    rw [hi']
    by_cases hcond : i < walkEndFrom multi P G c.genes
        (lastScoreOf (firstPass multi P G c.genes)) 0 z
    · rw [if_pos (⟨Nat.zero_le i, hcond⟩ : 0 ≤ i ∧ i < walkEndFrom multi P G
          c.genes (lastScoreOf (firstPass multi P G c.genes)) 0 z),
        if_pos hcond]
    · rw [if_neg (fun hh => hcond hh.2), if_neg hcond]

/-- Witness for C5 amended on `exC5` (`z = 4`): the characterization
evaluates node 3 of the final matrix to score 4. -/
theorem rgp_c5_amended_witness :
    ((initMatrices exC5 [] 3 1).getD 3 ndefault).score = 4 := by
  have h := (rgp_c5_amended exC5 [] 3 1 rfl (by decide) 4 (by decide)).2 3
    (by decide)
  rw [h]
  decide

/-! ## C9 — check_pangenome_former_rgp -/

/-- C9: `check_pangenome_former_rgp` raises iff the predictedRGP status is
`"inFile"` and `force` is unset; with `"inFile"` and `force` set it erases
the stored RGPs; in every other status it does nothing. -/
theorem rgp_c9 (status : String) (force : Bool) :
    (checkPangenomeFormerRgp status force = CheckResult.raiseErr ↔
      (status = "inFile" ∧ force = false)) ∧
    (checkPangenomeFormerRgp status force = CheckResult.erase ↔
      (status = "inFile" ∧ force = true)) ∧
    (checkPangenomeFormerRgp status force = CheckResult.noop ↔
      status ≠ "inFile") := by
  unfold checkPangenomeFormerRgp
  by_cases h : status = "inFile" <;> cases force <;> simp [h]

/-! ## C3 — max-GRR versus min-GRR -/

/-- C3 fails on the code: `min_grr` divides by the *smaller* cardinality, so
it is the larger value.  With `A = {0, 1}` and `B = {0}` (both non-empty,
sharing family 0) the computed max-GRR `1/2` is strictly below the computed
min-GRR `1`. -/
theorem rgp_c3_counterexample :
    ({0, 1} : Finset Nat).Nonempty ∧ ({0} : Finset Nat).Nonempty ∧
    (({0, 1} : Finset Nat) ∩ {0}).Nonempty ∧
    computeGrr {0, 1} {0} Nat.max < computeGrr {0, 1} {0} Nat.min := by
  have hi : (({0, 1} : Finset Nat) ∩ {0}).card = 1 := by decide
  have ha : ({0, 1} : Finset Nat).card = 2 := by decide
  have hb : ({0} : Finset Nat).card = 1 := by decide
  refine ⟨by decide, by decide, by decide, ?_⟩
  unfold computeGrr
  rw [hi, ha, hb]
  norm_num

/-- C3 amended: for non-empty family sets sharing at least one family the
computed min-GRR dominates the computed max-GRR, and both lie in `[0, 1]`. -/
theorem rgp_c3_amended (A B : Finset Nat) (hA : A.Nonempty) (hB : B.Nonempty) :
    computeGrr A B Nat.max ≤ computeGrr A B Nat.min ∧
    0 ≤ computeGrr A B Nat.max ∧ computeGrr A B Nat.max ≤ 1 ∧
    0 ≤ computeGrr A B Nat.min ∧ computeGrr A B Nat.min ≤ 1 := by
  have ha : 0 < A.card := Finset.card_pos.mpr hA
  have hb : 0 < B.card := Finset.card_pos.mpr hB
  have hIa : (A ∩ B).card ≤ A.card :=
    Finset.card_le_card (Finset.inter_subset_left)
  have hIb : (A ∩ B).card ≤ B.card :=
    Finset.card_le_card (Finset.inter_subset_right)
  have hmin : 0 < Nat.min A.card B.card := lt_min ha hb
  have hmax : 0 < Nat.max A.card B.card := lt_of_lt_of_le ha (le_max_left _ _)
  have hminQ : (0 : ℚ) < (Nat.min A.card B.card : ℚ) := by exact_mod_cast hmin
  have hmaxQ : (0 : ℚ) < (Nat.max A.card B.card : ℚ) := by exact_mod_cast hmax
  have hIQ : (0 : ℚ) ≤ ((A ∩ B).card : ℚ) := by positivity
  have hle : (Nat.min A.card B.card : ℚ) ≤ (Nat.max A.card B.card : ℚ) := by
    exact_mod_cast min_le_max
  unfold computeGrr
  refine ⟨?_, ?_, ?_, ?_, ?_⟩
  · exact div_le_div_of_nonneg_left hIQ hminQ hle
  · exact div_nonneg hIQ hmaxQ.le
  · rw [div_le_one hmaxQ]
    exact_mod_cast hIa.trans (le_max_left _ _)
  · exact div_nonneg hIQ hminQ.le
  · rw [div_le_one hminQ]
    exact_mod_cast le_min hIa hIb

/-- Witness for C3 amended at `A = {0, 1}`, `B = {0}`. -/
theorem rgp_c3_amended_witness :
    computeGrr {0, 1} {0} Nat.max ≤ computeGrr {0, 1} {0} Nat.min :=
  (rgp_c3_amended {0, 1} {0} (by decide) (by decide)).1

/-! ## C6 — rewrite_matrix from the last index -/

/-- C6 exposes a slip in the code: after `index += 1` the guard
`if index > len(matrix) and contig.is_circular` can never hold (the
incremented index is at most `len(matrix)`), so when the extraction start is
the last position of a circular contig's array the rescoring never wraps to
position 0 — `rewrite_matrix` leaves the matrix unchanged, for every contig,
matrix and parameter choice. -/
theorem rgp_c6_rewrite_from_last_noop (circ : Bool) (mat : List MatriceNode)
    (P G : Int) (multi : List Nat) (h : mat ≠ []) :
    rewriteMatrix circ mat (mat.length - 1) P G multi = mat := by
  have hlen : 0 < mat.length := List.length_pos.mpr h
  have h1 : mat.length - 1 + 1 = mat.length := Nat.succ_pred_eq_of_pos hlen
  unfold rewriteMatrix
  simp [h1]

/-- Witness: on `matC6` (circular, extraction started at the last index,
node 0 still live with score 5) `rewrite_matrix` changes nothing, although
a wrap to position 0 would have rescored node 0. -/
theorem rgp_c6_witness :
    matC6 ≠ [] ∧ (matC6.getD 0 ndefault).state = true ∧
    rewriteMatrix true matC6 (matC6.length - 1) 3 1 [] = matC6 :=
  ⟨by decide, by decide,
    rgp_c6_rewrite_from_last_noop true matC6 3 1 [] (by decide)⟩

/-! ## C2 — the three-persistent/four-variable scenario -/

/-- C2 fails on the code: scores are clamped at every step, so the stored
scores of the scenario contig are `[0, 0, 0, 1, 2, 3, 4]`, not all zero. -/
theorem rgp_c2_counterexample :
    (initMatrices exC2 [] 3 1).map (·.score) ≠ [0, 0, 0, 0, 0, 0, 0] := by
  decide

/-- C2 amended: the scenario's stored scores are `[0, 0, 0, 1, 2, 3, 4]`
(pre-clamp `[-1, -3, -9, 1, 2, 3, 4]`, since each predecessor score is
already clamped to 0).  Node 6 reaches `min_score = 4`, so `mk_regions`
performs one extraction — a candidate with the four variable genes and
score 4 — and returns zero regions only because the 350-bp candidate fails
the `min_length = 3000` filter. -/
theorem rgp_c2_amended :
    (initMatrices exC2 [] 3 1).map (·.score) = [0, 0, 0, 1, 2, 3, 4] ∧
    (mkRegions 10 exC2 (initMatrices exC2 [] 3 1) [] 3000 4 3 1
      Naming.contig).1 = [] ∧
    ((mkRegions 10 exC2 (initMatrices exC2 [] 3 1) [] 3000 4 3 1
      Naming.contig).2.map (fun r => (r.genes.length, r.score))) = [(4, 4)] := by
  refine ⟨?_, ?_, ?_⟩ <;> decide

/-! ## C7 — symmetry and range of GRR and Jaccard -/

/-- C7: on non-empty family sets, `compute_grr` (both modes) and
`compute_jaccard_index` are symmetric in their two arguments, and all three
values lie in `[0, 1]`. -/
theorem rgp_c7 (A B : Finset Nat) (hA : A.Nonempty) (hB : B.Nonempty) :
    computeGrr A B Nat.min = computeGrr B A Nat.min ∧
    computeGrr A B Nat.max = computeGrr B A Nat.max ∧
    computeJaccardIndex A B = computeJaccardIndex B A ∧
    (0 ≤ computeGrr A B Nat.min ∧ computeGrr A B Nat.min ≤ 1) ∧
    (0 ≤ computeGrr A B Nat.max ∧ computeGrr A B Nat.max ≤ 1) ∧
    (0 ≤ computeJaccardIndex A B ∧ computeJaccardIndex A B ≤ 1) := by
  have ha : 0 < A.card := Finset.card_pos.mpr hA
  have hb : 0 < B.card := Finset.card_pos.mpr hB
  have hIa : (A ∩ B).card ≤ A.card :=
    Finset.card_le_card Finset.inter_subset_left
  have hIb : (A ∩ B).card ≤ B.card :=
    Finset.card_le_card Finset.inter_subset_right
  have hIu : (A ∩ B).card ≤ (A ∪ B).card :=
    Finset.card_le_card (Finset.inter_subset_left.trans Finset.subset_union_left)
  have hu : 0 < (A ∪ B).card :=
    Finset.card_pos.mpr (hA.mono Finset.subset_union_left)
  have hminQ : (0 : ℚ) < (Nat.min A.card B.card : ℚ) := by
    exact_mod_cast lt_min ha hb
  have hmaxQ : (0 : ℚ) < (Nat.max A.card B.card : ℚ) := by
    exact_mod_cast lt_of_lt_of_le ha (le_max_left _ _)
  have huQ : (0 : ℚ) < ((A ∪ B).card : ℚ) := by exact_mod_cast hu
  have hIQ : (0 : ℚ) ≤ ((A ∩ B).card : ℚ) := by positivity
  unfold computeGrr computeJaccardIndex
  refine ⟨?_, ?_, ?_, ⟨?_, ?_⟩, ⟨?_, ?_⟩, ⟨?_, ?_⟩⟩
  · have h : Nat.min A.card B.card = Nat.min B.card A.card :=
      Nat.min_comm _ _
    rw [Finset.inter_comm, h]
  · have h : Nat.max A.card B.card = Nat.max B.card A.card :=
      Nat.max_comm _ _
    rw [Finset.inter_comm, h]
  · rw [Finset.inter_comm, Finset.union_comm]
  · exact div_nonneg hIQ hminQ.le
  · rw [div_le_one hminQ]
    exact_mod_cast le_min hIa hIb
  · exact div_nonneg hIQ hmaxQ.le
  · rw [div_le_one hmaxQ]
    exact_mod_cast hIa.trans (le_max_left _ _)
  · exact div_nonneg hIQ huQ.le
  · rw [div_le_one huQ]
    exact_mod_cast hIu

/-- Witness for C7 at `A = {0, 1}`, `B = {0}`. -/
theorem rgp_c7_witness :
    computeJaccardIndex {0, 1} {0} = computeJaccardIndex {0} {0, 1} :=
  (rgp_c7 {0, 1} {0} (by decide) (by decide)).2.2.1

/-! ## C8 — pairs without a shared family are skipped -/

/-- C8: `compute_rgp_metric` is exactly the metric map over the pairs whose
family sets intersect — a pair with empty intersection contributes no edge —
and every evaluated pair has strictly positive `min`/`max`/union
cardinalities, so no metric divides by zero. -/
theorem rgp_c8 (pairs : List ((String × Finset Nat) × (String × Finset Nat))) :
    computeRgpMetric pairs =
      (pairs.filter (fun p => decide (p.1.2 ∩ p.2.2).Nonempty)).map mkEdge ∧
    ∀ p ∈ pairs, (p.1.2 ∩ p.2.2).Nonempty →
      0 < Nat.min p.1.2.card p.2.2.card ∧
      0 < Nat.max p.1.2.card p.2.2.card ∧
      0 < (p.1.2 ∪ p.2.2).card := by
  constructor
  · induction pairs with
    | nil => rfl
    | cons p rest ih =>
      by_cases h : (p.1.2 ∩ p.2.2).Nonempty <;>
        simp [computeRgpMetric, h, ih]
  · intro p _ hne
    have hA : p.1.2.Nonempty := hne.mono Finset.inter_subset_left
    have hB : p.2.2.Nonempty := hne.mono Finset.inter_subset_right
    have ha : 0 < p.1.2.card := Finset.card_pos.mpr hA
    have hb : 0 < p.2.2.card := Finset.card_pos.mpr hB
    exact ⟨lt_min ha hb, lt_of_lt_of_le ha (le_max_left _ _),
      Finset.card_pos.mpr (hA.mono Finset.subset_union_left)⟩

/-- Witness for C8: a single pair sharing no family yields no edge, and a
pair sharing family 0 has positive denominators. -/
theorem rgp_c8_witness :
    computeRgpMetric [(("a", {1}), ("b", {2}))] = [] ∧
    0 < Nat.min ({0, 1} : Finset Nat).card ({0} : Finset Nat).card := by
  constructor
  · have h := (rgp_c8 [(("a", {1}), ("b", {2}))]).1
    simpa using h
  · have h := (rgp_c8 [(("a", ({0, 1} : Finset Nat)), ("b", {0}))]).2
    exact (h (("a", {0, 1}), ("b", {0})) (by simp) (by decide)).1

/-! ## C5 — counterexample to the "first zero node" stopping rule -/

/-- C5 fails on the code: `zero_ind` is reassigned at every zero-state node,
so the wraparound walk stops at the *last* first-pass zero node, not the
first.  On `exC5` the first pass has zero-state nodes at indices 0 and 4;
the walk starts at node 0 — the first such node — so under the claimed
stopping rule it would stop at once and modify nothing, yet `init_matrices`
rewrites nodes 0–3 (node 1's score changes from 1 to 6). -/
theorem rgp_c5_counterexample :
    exC5.isCircular = true ∧
    ((firstPass [] 3 1 exC5.genes).getD 0 ndefault).state = false ∧
    (((firstPass [] 3 1 exC5.genes).getLast?).map (·.state)).getD false = true ∧
    ((firstPass [] 3 1 exC5.genes).getD 1 ndefault).score = 1 ∧
    ((initMatrices exC5 [] 3 1).getD 1 ndefault).score = 6 := by
  refine ⟨rfl, ?_, ?_, ?_, ?_⟩ <;> decide

end PPan
